import Mathlib

/-!
# podman-docker-shim: the command router, tag discovery and fan-out pusher

A shallow embedding of `main.go`.  The program is a sequence of blocking calls
to the external `podman` executable, so the embedding passes an explicit
`State` (the subprocess invocations made so far, and the messages written with
the `log` package) through every function and reads the behaviour of the
external tool from a `World` oracle.  The oracle may answer differently for
the same argument vector at different points of the run: it sees the whole
history of earlier invocations.

Strings are Lean strings (sequences of Unicode scalar values).  `debugLog`
only writes diagnostics and never changes control flow, so its messages are
not recorded.
-/

namespace PodmanShim

/-! ## Errors and child processes -/

/-- A Go `error` value, as far as the program builds or inspects one. -/
inductive GoError where
  /-- An `*exec.ExitError`: the child ran and exited with a non-zero status. -/
  | exitError (code : Nat)
  /-- Any other error of `os/exec` (the child could not be started or awaited). -/
  | execError (msg : String)
  /-- The value of `fmt.Errorf(msg)` with no wrapped error. -/
  | errorf (msg : String)
  /-- The value of `fmt.Errorf(pfx + "%w", cause)`. -/
  | wrapf (pfx : String) (cause : GoError)
  deriving DecidableEq, Repr

/-- The method `Error()` of an error: its message. -/
def GoError.Error : GoError → String
  | .exitError code => "exit status " ++ toString code
  | .execError msg => msg
  | .errorf msg => msg
  | .wrapf pfx cause => pfx ++ cause.Error

/-- The method `Unwrap()` of an error: the error it wraps, if any. -/
def GoError.Unwrap : GoError → Option GoError
  | .wrapf _ cause => some cause
  | _ => none

/-- How a child process ended. -/
inductive ChildResult where
  /-- The child ran to completion with this exit status. -/
  | exited (code : Nat)
  /-- The child could not be started or awaited. -/
  | startError (msg : String)
  deriving DecidableEq, Repr

/-- The two ways `main.go` runs a command: `cmd.Run()` with the standard
streams inherited, or `cmd.Output()` with standard output captured. -/
inductive Mode where
  | stream
  | capture
  deriving DecidableEq, Repr

/-- One subprocess invocation `exec.Command("podman", args...)`. -/
structure Invocation where
  mode : Mode
  args : List String
  deriving DecidableEq, Repr

/-- The environment of one run of the shim. -/
structure World where
  /-- Whether `exec.LookPath("podman")` succeeds. -/
  podmanOnPath : Bool
  /-- How the child ends, given the invocations made before it. -/
  result : List Invocation → Invocation → ChildResult
  /-- What the child writes to its standard output. -/
  stdout : List Invocation → Invocation → String

/-- The observable effects of the shim so far. -/
structure State where
  /-- The subprocess invocations, oldest first. -/
  trace : List Invocation
  /-- The messages given to `log.Printf`, `log.Println` and `log.Fatal`. -/
  log : List String
  deriving DecidableEq, Repr

/-- The state at program start. -/
def State.init : State := ⟨[], []⟩

/-- Append a message to the log. -/
def State.logMsg (s : State) (msg : String) : State :=
  { s with log := s.log ++ [msg] }

/-- The error returned by `cmd.Run()` and `cmd.Output()`: `nil` exactly when
the child ran and exited with status zero. -/
def cmdErr : ChildResult → Option GoError
  | .exited 0 => none
  | .exited (code + 1) => some (.exitError (code + 1))
  | .startError msg => some (.execError msg)

/-! ## The string functions of the Go standard library that the program uses -/

/-- Go's `unicode.IsSpace`. -/
def isSpace (c : Char) : Bool :=
  c = '\t' || c = '\n' || c.val = 0x0B || c.val = 0x0C || c = '\r' || c = ' ' ||
  c.val = 0x85 || c.val = 0xA0 || c.val = 0x1680 ||
  (0x2000 ≤ c.val && c.val ≤ 0x200A) ||
  c.val = 0x2028 || c.val = 0x2029 || c.val = 0x202F || c.val = 0x205F ||
  c.val = 0x3000

/-- Go's `strings.TrimSpace` on a list of characters: leading and trailing
white space removed. -/
def trimSpaceChars (cs : List Char) : List Char :=
  ((cs.dropWhile isSpace).reverse.dropWhile isSpace).reverse

/-- Go's `strings.TrimSpace`. -/
def TrimSpace (s : String) : String := ⟨trimSpaceChars s.data⟩

/-- Go's `strings.Split(s, sep)` for a separator of one character, on a list
of characters: the pieces between the separators, one more than there are
separators. -/
def splitChars (sep : Char) : List Char → List (List Char)
  | [] => [[]]
  | c :: cs =>
    if c = sep then [] :: splitChars sep cs
    else
      match splitChars sep cs with
      | [] => [[c]]
      | piece :: pieces => (c :: piece) :: pieces

/-- Go's `strings.Split(s, "\n")`. -/
def SplitLines (s : String) : List String :=
  (splitChars '\n' s.data).map String.mk

/-- Go's `strings.HasPrefix`. -/
def startsWith (s pre : String) : Bool := pre.data.isPrefixOf s.data

/-! ## `getAllTags` -/

/-- The arguments of the listing command of `getAllTags`. -/
def listArgs (image : String) : List String :=
  ["images", "--filter", "reference=" ++ image, "--format", "\x7b\x7b.Tag\x7d\x7d"]

/-- The loop of `getAllTags` over the lines of the output: `tags` is the slice
built so far. -/
def collectTags : List String → List String → List String
  | tags, [] => tags
  | tags, tag :: rest =>
    if tag ≠ "" ∧ tag ≠ "<none>" then collectTags (tags ++ [tag]) rest
    else collectTags tags rest

/-- The part of `getAllTags` after a successful listing: parse the captured
output `out`. -/
def parseTags (image : String) (out : String) : Except GoError (List String) :=
  let tags := collectTags [] (SplitLines (TrimSpace out))
  if tags.length = 0 then
    .error (.errorf ("no tags found for image: " ++ image))
  else
    .ok tags

/-- The function `getAllTags`. -/
def getAllTags (w : World) (image : String) (s : State) :
    Except GoError (List String) × State :=
  let cmd : Invocation := ⟨.capture, listArgs image⟩
  let s1 : State := { s with trace := s.trace ++ [cmd] }
  match cmdErr (w.result s.trace cmd) with
  | some err => (.error (.wrapf "error getting tags: " err), s1)
  | none => (parseTags image (w.stdout s.trace cmd), s1)

/-! ## `pushAllTags` -/

/-- The fully qualified reference `fmt.Sprintf("%s:%s", image, tag)`. -/
def fullTag (image tag : String) : String := image ++ ":" ++ tag

/-- The invocation `exec.Command("podman", "push", fullTag)` run with
inherited streams. -/
def pushCmd (image tag : String) : Invocation :=
  ⟨.stream, ["push", fullTag image tag]⟩

/-- The first loop of `pushAllTags`: list the tags to the user. -/
def logTags : List String → State → State
  | [], s => s
  | tag :: rest, s => logTags rest (s.logMsg ("  " ++ tag ++ "\n"))

/-- The push loop of `pushAllTags`, with its two counters. -/
def pushLoop (w : World) (image : String) :
    List String → Nat → Nat → State → Nat × Nat × State
  | [], successful, failed, s => (successful, failed, s)
  | tag :: rest, successful, failed, s =>
    let s1 := s.logMsg ("Pushing " ++ fullTag image tag ++ "...\n")
    let cmd := pushCmd image tag
    let s2 : State := { s1 with trace := s1.trace ++ [cmd] }
    match cmdErr (w.result s1.trace cmd) with
    | some err =>
      pushLoop w image rest successful (failed + 1)
        (s2.logMsg ("Failed to push " ++ fullTag image tag ++ ": " ++ err.Error ++ "\n"))
    | none =>
      pushLoop w image rest (successful + 1) failed
        (s2.logMsg ("Successfully pushed " ++ fullTag image tag ++ "\n"))

/-- The summary line of `pushAllTags`. -/
def summaryLine (successful failed : Nat) : String :=
  "\nPush completed: " ++ toString successful ++ " successful, " ++
    toString failed ++ " failed\n"

/-- The function `pushAllTags`. -/
def pushAllTags (w : World) (image : String) (s : State) : Option GoError × State :=
  match getAllTags w image s with
  | (.error err, s1) => (some err, s1)
  | (.ok tags, s1) =>
    let s2 := s1.logMsg ("Found tags for " ++ image ++ ":\n")
    let s3 := logTags tags s2
    let s4 := s3.logMsg "\nStarting push operation...\n"
    match pushLoop w image tags 0 0 s4 with
    | (successful, failed, s5) =>
      let s6 := s5.logMsg (summaryLine successful failed)
      if failed > 0 then
        (some (.errorf (toString failed ++ " pushes failed")), s6)
      else
        (none, s6)

/-! ## `executeCommand` and `main` -/

/-- The function `executeCommand`. -/
def executeCommand (w : World) (args : List String) (s : State) : Option GoError × State :=
  let cmd : Invocation := ⟨.stream, args⟩
  (cmdErr (w.result s.trace cmd), { s with trace := s.trace ++ [cmd] })

/-- The function `checkPodmanInstalled`. -/
def checkPodmanInstalled (w : World) : Bool := w.podmanOnPath

/-- The end of one run: the exit status of the shim and its effects. -/
structure Outcome where
  exitCode : Nat
  state : State
  deriving DecidableEq, Repr

/-- The call `log.Fatal(msg)`: write the message, then `os.Exit(1)`. -/
def logFatal (msg : String) (s : State) : Outcome := ⟨1, s.logMsg msg⟩

/-- The local variables of the scan loop of `main`. -/
structure Scan where
  hasAllTags : Bool
  filteredArgs : List String
  image : String
  deriving DecidableEq, Repr

/-- The variables before the scan loop. -/
def Scan.init : Scan := ⟨false, [], ""⟩

/-- The scan loop of `main` over the tokens after `push`. -/
def scanArgs : List String → Scan → Scan
  | [], v => v
  | arg :: rest, v =>
    if arg = "-a" ∨ arg = "--all-tags" then
      scanArgs rest { v with hasAllTags := true }
    else
      let v1 : Scan := if !startsWith arg "-" then { v with image := arg } else v
      scanArgs rest { v1 with filteredArgs := v1.filteredArgs ++ [arg] }

/-- The last statement of `main`: run the tool with `args`; exit status 1 when
it fails, and the normal end of `main` (status 0) otherwise. -/
def finalExecute (w : World) (args : List String) (s : State) : Outcome :=
  match executeCommand w args s with
  | (some _, s1) => ⟨1, s1⟩
  | (none, s1) => ⟨0, s1⟩

/-- The part of `main` after the check that the tool is installed. -/
def route (w : World) (args : List String) (s : State) : Outcome :=
  match args with
  | [] =>
    match executeCommand w [] s with
    | (some _, s1) => ⟨1, s1⟩
    | (none, s1) => ⟨0, s1⟩
  | command :: rest =>
    if command = "push" then
      let v := scanArgs rest Scan.init
      if v.hasAllTags then
        let s1 := s.logMsg "Unsupported flag detected for push command, invoking shim...\n"
        if v.image = "" then
          logFatal "no image specified" s1
        else
          let s2 := s1.logMsg ("Pushing all tags for image: " ++ v.image)
          match pushAllTags w v.image s2 with
          | (some err, s3) => logFatal err.Error s3
          | (none, s3) => ⟨0, s3⟩
      else
        finalExecute w ("push" :: v.filteredArgs) s
    else
      finalExecute w (command :: rest) s

/-- The function `main`, run on the arguments `os.Args[1:]`. -/
def main (w : World) (args : List String) : Outcome :=
  if !checkPodmanInstalled w then
    logFatal "podman not found" State.init
  else
    route w args State.init

/-! ## Specification-side notions -/

/-- A line of the listing is kept as a tag when it is neither empty nor the
sentinel `<none>`. -/
def keepLine (line : String) : Bool := decide (line ≠ "" ∧ line ≠ "<none>")

/-- The listing invocation made by `getAllTags`. -/
def listCmd (image : String) : Invocation := ⟨.capture, listArgs image⟩

/-- The per-tag results of a fan-out over `tags` that starts after the
invocations `hist`: `true` where the push of that tag succeeds.  The push of a
tag is answered by the environment after the pushes of all earlier tags. -/
def pushOutcomes (w : World) (image : String) : List String → List Invocation → List Bool
  | [], _ => []
  | tag :: rest, hist =>
    (cmdErr (w.result hist (pushCmd image tag))).isNone ::
      pushOutcomes w image rest (hist ++ [pushCmd image tag])

/-- The image candidates among the tokens after `push`: those that do not
start with `-`. -/
def candidates (rest : List String) : List String :=
  rest.filter (fun a => !startsWith a "-")

/-- The image resolved from the tokens after `push`: the last candidate, or
the empty string when there is none. -/
def resolvedImage (rest : List String) : String :=
  ((candidates rest).getLast?).getD ""

/-- The token is one of the two all-tags flags. -/
def allTagsFlag (arg : String) : Bool := decide (arg = "-a" ∨ arg = "--all-tags")

/-- The invocations made between two states of one run. -/
def newInvocations (before after : State) : List Invocation :=
  after.trace.drop before.trace.length

/-! ## Worlds used as concrete inputs -/

/-- Every child succeeds; the listing prints the three lines `1.0`, `<none>`,
`latest`. -/
def listingWorld : World :=
  ⟨true, fun _ _ => .exited 0, fun _ _ => "1.0\n<none>\nlatest\n"⟩

/-- The listing prints the tags `a`, `b`, `c`; the push of `b` fails. -/
def abcWorld : World :=
  ⟨true, fun _ inv => if inv.args = ["push", "img:b"] then .exited 1 else .exited 0,
    fun _ _ => "a\nb\nc\n"⟩

/-- Every child exits with status 2. -/
def exitTwoWorld : World :=
  ⟨true, fun _ _ => .exited 2, fun _ _ => ""⟩

/-- The listing succeeds and prints only the sentinel. -/
def noTagWorld : World :=
  ⟨true, fun _ _ => .exited 0, fun _ _ => "<none>\n"⟩

/-! ## The library functions do what their documentation says -/

theorem splitChars_ne_nil (sep : Char) (cs : List Char) : splitChars sep cs ≠ [] := by
  cases cs with
  | nil => simp [splitChars]
  | cons c cs =>
    rw [splitChars]
    split_ifs
    · simp
    · split <;> simp

theorem splitChars_join (sep : Char) (cs : List Char) :
    List.intercalate [sep] (splitChars sep cs) = cs := by
  induction cs with
  | nil => simp [splitChars, List.intercalate]
  | cons c cs ih =>
    rw [splitChars]
    cases hs : splitChars sep cs with
    | nil => exact absurd hs (splitChars_ne_nil sep cs)
    | cons piece pieces =>
      rw [hs] at ih
      split_ifs with hc
      · subst hc
        simp only [List.intercalate, List.intersperse_cons_cons, List.flatten_cons] at ih ⊢
        rw [ih]; rfl
      · cases pieces with
        | nil =>
          simp only [List.intercalate, List.intersperse_single, List.flatten_cons, List.flatten_nil, List.append_nil] at ih ⊢
          rw [ih]
        | cons p ps =>
          simp only [List.intercalate, List.intersperse_cons_cons, List.flatten_cons] at ih ⊢
          rw [List.cons_append, ih]

theorem splitChars_no_sep (sep : Char) (cs : List Char) :
    ∀ piece ∈ splitChars sep cs, sep ∉ piece := by
  induction cs with
  | nil => simp [splitChars]
  | cons c cs ih =>
    rw [splitChars]
    cases hs : splitChars sep cs with
    | nil => exact absurd hs (splitChars_ne_nil sep cs)
    | cons piece pieces =>
      rw [hs] at ih
      split_ifs with hc
      · intro p hp
        rcases List.mem_cons.1 hp with h | h
        · subst h; simp
        · exact ih p h
      · intro p hp
        rcases List.mem_cons.1 hp with h | h
        · subst h
          intro hmem
          rcases List.mem_cons.1 hmem with h1 | h1
          · exact hc h1.symm
          · exact ih piece (List.mem_cons_self _ _) h1
        · exact ih p (List.mem_cons_of_mem _ h)

theorem splitChars_length (sep : Char) (cs : List Char) :
    (splitChars sep cs).length = cs.count sep + 1 := by
  induction cs with
  | nil => simp [splitChars]
  | cons c cs ih =>
    rw [splitChars]
    cases hs : splitChars sep cs with
    | nil => exact absurd hs (splitChars_ne_nil sep cs)
    | cons piece pieces =>
      rw [hs] at ih
      split_ifs with hc
      · subst hc; simp at ih ⊢; omega
      · have : (c == sep) = false := by simpa using hc
        simp [List.count_cons, this] at ih ⊢; omega

theorem trimSpaceChars_decomp (cs : List Char) :
    cs = cs.takeWhile isSpace ++ trimSpaceChars cs ++
      ((cs.dropWhile isSpace).reverse.takeWhile isSpace).reverse := by
  have h1 := List.takeWhile_append_dropWhile isSpace cs
  have h2 := List.takeWhile_append_dropWhile isSpace (cs.dropWhile isSpace).reverse
  have h3 := congrArg List.reverse h2
  simp only [List.reverse_append, List.reverse_reverse] at h3
  unfold trimSpaceChars
  rw [List.append_assoc, h3, h1]

theorem trimSpaceChars_trimmed_is_space (cs : List Char) :
    (∀ c ∈ cs.takeWhile isSpace, isSpace c = true) ∧
      (∀ c ∈ ((cs.dropWhile isSpace).reverse.takeWhile isSpace).reverse, isSpace c = true) := by
  constructor
  · intro c hc
    exact List.mem_takeWhile_imp hc
  · intro c hc
    exact List.mem_takeWhile_imp (List.mem_reverse.1 hc)

theorem trimSpaceChars_head_not_space (cs : List Char) (c : Char)
    (h : (trimSpaceChars cs).head? = some c) : isSpace c = false := by
  have hpre : trimSpaceChars cs <+: cs.dropWhile isSpace :=
    List.rdropWhile_prefix isSpace (cs.dropWhile isSpace)
  obtain ⟨t, ht⟩ := hpre
  have hnot := List.head?_dropWhile_not isSpace cs
  cases htrim : trimSpaceChars cs with
  | nil => rw [htrim] at h; simp at h
  | cons a l =>
    rw [htrim] at h ht
    simp only [List.head?_cons, Option.some.injEq] at h
    rw [← ht] at hnot
    simp only [List.cons_append, List.head?_cons] at hnot
    rw [← h]
    exact hnot

theorem trimSpaceChars_last_not_space (cs : List Char) (c : Char)
    (h : (trimSpaceChars cs).getLast? = some c) : isSpace c = false := by
  have hne : List.rdropWhile isSpace (cs.dropWhile isSpace) ≠ [] := by
    intro hnil
    have : trimSpaceChars cs = [] := hnil
    rw [this] at h
    simp at h
  have hlast := List.rdropWhile_last_not isSpace (cs.dropWhile isSpace) hne
  have heq : (trimSpaceChars cs).getLast? =
      some ((List.rdropWhile isSpace (cs.dropWhile isSpace)).getLast hne) :=
    List.getLast?_eq_getLast _ hne
  rw [heq] at h
  simp only [Option.some.injEq] at h
  rw [← h]
  simpa using hlast

/-! ## Lemmas on the loops -/

theorem collectTags_eq (lines : List String) :
    ∀ tags, collectTags tags lines = tags ++ lines.filter keepLine := by
  induction lines with
  | nil => intro tags; simp [collectTags]
  | cons l ls ih =>
    intro tags
    by_cases h : l ≠ "" ∧ l ≠ "<none>"
    · have hk : keepLine l = true := by simp [keepLine, h]
      rw [collectTags, if_pos h, ih, List.filter_cons_of_pos hk]
      simp
    · have hk : ¬ keepLine l = true := by simp only [keepLine, decide_eq_true_eq]; exact h
      rw [collectTags, if_neg h, ih, List.filter_cons_of_neg hk]

theorem parseTags_eq (image out : String) :
    parseTags image out =
      if (SplitLines (TrimSpace out)).filter keepLine = [] then
        .error (.errorf ("no tags found for image: " ++ image))
      else .ok ((SplitLines (TrimSpace out)).filter keepLine) := by
  simp only [parseTags, collectTags_eq, List.nil_append, List.length_eq_zero]

theorem getAllTags_state (w : World) (image : String) (s : State) :
    (getAllTags w image s).2 = { s with trace := s.trace ++ [listCmd image] } := by
  simp only [getAllTags, listCmd]
  split <;> rfl

theorem logTags_trace (tags : List String) :
    ∀ s, (logTags tags s).trace = s.trace := by
  induction tags with
  | nil => intro s; rfl
  | cons t ts ih => intro s; rw [logTags, ih]; rfl

theorem pushLoop_trace (w : World) (image : String) (tags : List String) :
    ∀ successful failed s,
      (pushLoop w image tags successful failed s).2.2.trace =
        s.trace ++ tags.map (pushCmd image) := by
  induction tags with
  | nil => intro successful failed s; simp [pushLoop]
  | cons t ts ih =>
    intro successful failed s
    rw [pushLoop]
    cases cmdErr (w.result (s.logMsg ("Pushing " ++ fullTag image t ++ "...\n")).trace
        (pushCmd image t)) <;> simp [ih, State.logMsg]

theorem pushLoop_counts (w : World) (image : String) (tags : List String) :
    ∀ successful failed s,
      (pushLoop w image tags successful failed s).1 =
          successful + (pushOutcomes w image tags s.trace).count true ∧
      (pushLoop w image tags successful failed s).2.1 =
          failed + (pushOutcomes w image tags s.trace).count false := by
  induction tags with
  | nil => intro successful failed s; simp [pushLoop, pushOutcomes]
  | cons t ts ih =>
    intro successful failed s
    rw [pushLoop, pushOutcomes]
    have htr : (s.logMsg ("Pushing " ++ fullTag image t ++ "...\n")).trace = s.trace := rfl
    rw [htr]
    cases hres : cmdErr (w.result s.trace (pushCmd image t)) with
    | none =>
      simp only [Option.isNone_none]
      have := ih (successful + 1) failed
        (State.logMsg { trace := s.trace ++ [pushCmd image t],
                        log := (s.logMsg ("Pushing " ++ fullTag image t ++ "...\n")).log }
          ("Successfully pushed " ++ fullTag image t ++ "\n"))
      simp only [State.logMsg] at this ⊢
      rw [this.1, this.2]
      simp [List.count_cons]
      omega
    | some err =>
      simp only [Option.isNone_some]
      have := ih successful (failed + 1)
        (State.logMsg { trace := s.trace ++ [pushCmd image t],
                        log := (s.logMsg ("Pushing " ++ fullTag image t ++ "...\n")).log }
          ("Failed to push " ++ fullTag image t ++ ": " ++ err.Error ++ "\n"))
      simp only [State.logMsg] at this ⊢
      rw [this.1, this.2]
      simp [List.count_cons]
      omega

theorem pushOutcomes_length (w : World) (image : String) (tags : List String) :
    ∀ hist, (pushOutcomes w image tags hist).length = tags.length := by
  induction tags with
  | nil => intro hist; rfl
  | cons t ts ih => intro hist; simp [pushOutcomes, ih]

theorem pushOutcomes_getElem? (w : World) (image : String) (tags : List String) :
    ∀ (hist : List Invocation) (i : Nat),
      (pushOutcomes w image tags hist)[i]? =
        (tags[i]?).map (fun tag =>
          (cmdErr (w.result (hist ++ (tags.take i).map (pushCmd image))
            (pushCmd image tag))).isNone) := by
  induction tags with
  | nil => intro hist i; simp [pushOutcomes]
  | cons t ts ih =>
    intro hist i
    cases i with
    | zero => simp [pushOutcomes]
    | succ j =>
      rw [pushOutcomes, List.getElem?_cons_succ, ih, List.getElem?_cons_succ]
      simp

theorem pushCmd_injective (image : String) : Function.Injective (pushCmd image) := by
  intro t u h
  simp only [pushCmd, fullTag, Invocation.mk.injEq, List.cons.injEq, and_true, true_and] at h
  have hd := congrArg String.data h
  simp only [String.data_append, List.append_cancel_left_eq] at hd
  exact String.ext hd

theorem pushAllTags_ok (w : World) (image : String) (s s1 : State) (tags : List String)
    (h : getAllTags w image s = (.ok tags, s1)) :
    pushAllTags w image s =
      ((if (pushLoop w image tags 0 0
              ((logTags tags (s1.logMsg ("Found tags for " ++ image ++ ":\n"))).logMsg
                "\nStarting push operation...\n")).2.1 > 0 then
          some (.errorf (toString (pushLoop w image tags 0 0
              ((logTags tags (s1.logMsg ("Found tags for " ++ image ++ ":\n"))).logMsg
                "\nStarting push operation...\n")).2.1 ++ " pushes failed"))
        else none),
       (pushLoop w image tags 0 0
              ((logTags tags (s1.logMsg ("Found tags for " ++ image ++ ":\n"))).logMsg
                "\nStarting push operation...\n")).2.2.logMsg
          (summaryLine
            (pushLoop w image tags 0 0
              ((logTags tags (s1.logMsg ("Found tags for " ++ image ++ ":\n"))).logMsg
                "\nStarting push operation...\n")).1
            (pushLoop w image tags 0 0
              ((logTags tags (s1.logMsg ("Found tags for " ++ image ++ ":\n"))).logMsg
                "\nStarting push operation...\n")).2.1)) := by
  simp only [pushAllTags, h]
  split_ifs <;> rfl

theorem pushAllTags_error (w : World) (image : String) (s s1 : State) (err : GoError)
    (h : getAllTags w image s = (.error err, s1)) :
    pushAllTags w image s = (some err, s1) := by
  simp only [pushAllTags, h]

/-! ## Tag discovery -/

/-- C3: when `getAllTags` succeeds, its result is the list of lines of the
captured output, trimmed as a whole and split on newline, from which the empty
lines and the lines equal to `<none>` are removed, the others kept in order. -/
theorem getAllTags_filters_lines (w : World) (image : String) (s s1 : State)
    (tags : List String) (h : getAllTags w image s = (.ok tags, s1)) :
    tags = (SplitLines (TrimSpace (w.stdout s.trace ⟨.capture, listArgs image⟩))).filter
      (fun line => decide (line ≠ "" ∧ line ≠ "<none>")) := by
  simp only [getAllTags] at h
  split at h
  · simp at h
  · rw [parseTags_eq] at h
    split_ifs at h with hnil
    · simp at h
    · simp only [Prod.mk.injEq, Except.ok.injEq] at h
      exact h.1.symm

/-- C3, at the listing `1.0`, `<none>`, `latest`: the tags are `1.0`, `latest`. -/
theorem getAllTags_filters_lines_witness :
    getAllTags listingWorld "X" State.init
        = (.ok ["1.0", "latest"], ⟨[⟨.capture, listArgs "X"⟩], []⟩) ∧
      ["1.0", "latest"]
        = (SplitLines (TrimSpace (listingWorld.stdout State.init.trace
              ⟨.capture, listArgs "X"⟩))).filter
            (fun line => decide (line ≠ "" ∧ line ≠ "<none>")) :=
  ⟨rfl, getAllTags_filters_lines listingWorld "X" State.init
    ⟨[⟨.capture, listArgs "X"⟩], []⟩ ["1.0", "latest"] rfl⟩

/-- C4: `getAllTags` fails exactly when the listing invocation fails or no line
is left after filtering; a failed listing gives the error wrapping the cause,
an empty filtered list gives the error `no tags found for image: <image>`, and
every successful result is a non-empty list. -/
theorem getAllTags_error_iff (w : World) (image : String) (s : State) :
    ((∃ err, (getAllTags w image s).1 = .error err) ↔
      (cmdErr (w.result s.trace ⟨.capture, listArgs image⟩) ≠ none ∨
        (SplitLines (TrimSpace (w.stdout s.trace ⟨.capture, listArgs image⟩))).filter
          (fun line => decide (line ≠ "" ∧ line ≠ "<none>")) = [])) ∧
    (∀ cause, cmdErr (w.result s.trace ⟨.capture, listArgs image⟩) = some cause →
      (getAllTags w image s).1 = .error (.wrapf "error getting tags: " cause) ∧
      (GoError.wrapf "error getting tags: " cause).Unwrap = some cause ∧
      (GoError.wrapf "error getting tags: " cause).Error
        = "error getting tags: " ++ cause.Error) ∧
    (cmdErr (w.result s.trace ⟨.capture, listArgs image⟩) = none →
      (SplitLines (TrimSpace (w.stdout s.trace ⟨.capture, listArgs image⟩))).filter
          (fun line => decide (line ≠ "" ∧ line ≠ "<none>")) = [] →
      (getAllTags w image s).1 = .error (.errorf ("no tags found for image: " ++ image))) ∧
    (∀ tags, (getAllTags w image s).1 = .ok tags → tags ≠ []) := by
  have hk : (fun line => decide (line ≠ "" ∧ line ≠ "<none>")) = keepLine := rfl
  rw [hk]
  simp only [getAllTags]
  cases hres : cmdErr (w.result s.trace ⟨.capture, listArgs image⟩) with
  | some cause =>
    simp [GoError.Unwrap, GoError.Error]
  | none =>
    simp only [parseTags_eq]
    split_ifs with hnil
    · simp [hnil]
    · simp [hnil]

/-! ## The fan-out -/

theorem pushAllTags_trace_ok (w : World) (image : String) (s s1 : State)
    (tags : List String) (h : getAllTags w image s = (.ok tags, s1)) :
    (pushAllTags w image s).2.trace
      = s.trace ++ listCmd image :: tags.map (pushCmd image) := by
  have hs1 : s1 = { s with trace := s.trace ++ [listCmd image] } := by
    have := getAllTags_state w image s
    rw [h] at this
    exact this
  rw [pushAllTags_ok w image s s1 tags h]
  simp only [State.logMsg, pushLoop_trace, logTags_trace, hs1]
  simp

/-- C5: after a discovery that returned the tags `t1..tn`, `pushAllTags` makes,
whatever the results of the individual pushes, exactly `n` further invocations,
the `i`-th being `podman push image:ti` with inherited streams, in discovery
order; a tag is pushed as many times as it occurs in the list (no retry). -/
theorem pushAllTags_pushes_every_tag_once (w : World) (image : String) (s s1 : State)
    (tags : List String) (h : getAllTags w image s = (.ok tags, s1)) :
    newInvocations s1 (pushAllTags w image s).2
        = tags.map (fun tag => ⟨.stream, ["push", image ++ ":" ++ tag]⟩) ∧
      (newInvocations s1 (pushAllTags w image s).2).length = tags.length ∧
      (∀ (i : Nat) (tag : String), tags[i]? = some tag →
        (newInvocations s1 (pushAllTags w image s).2)[i]?
          = some (⟨.stream, ["push", image ++ ":" ++ tag]⟩ : Invocation)) ∧
      (∀ tag : String, (newInvocations s1 (pushAllTags w image s).2).count
          (⟨.stream, ["push", image ++ ":" ++ tag]⟩ : Invocation) = tags.count tag) := by
  have hs1 : s1 = { s with trace := s.trace ++ [listCmd image] } := by
    have := getAllTags_state w image s
    rw [h] at this
    exact this
  have hnew : newInvocations s1 (pushAllTags w image s).2 = tags.map (pushCmd image) := by
    rw [newInvocations, pushAllTags_trace_ok w image s s1 tags h, hs1]
    have : s.trace ++ listCmd image :: tags.map (pushCmd image)
        = (s.trace ++ [listCmd image]) ++ tags.map (pushCmd image) := by simp
    rw [this, List.drop_left]
  have hfun : (fun tag => (⟨.stream, ["push", image ++ ":" ++ tag]⟩ : Invocation))
      = pushCmd image := rfl
  rw [hnew, hfun]
  refine ⟨rfl, by simp, ?_, ?_⟩
  · intro i tag hi
    rw [List.getElem?_map, hi]
    rfl
  · intro tag
    exact List.count_map_of_injective tags (pushCmd image) (pushCmd_injective image) tag

/-- C5, at the tags `a`, `b`, `c` with the push of `b` failing: three pushes. -/
theorem pushAllTags_pushes_every_tag_once_witness :
    getAllTags abcWorld "img" State.init
        = (.ok ["a", "b", "c"], ⟨[⟨.capture, listArgs "img"⟩], []⟩) ∧
      newInvocations ⟨[⟨.capture, listArgs "img"⟩], []⟩
          (pushAllTags abcWorld "img" State.init).2
        = [⟨.stream, ["push", "img:a"]⟩, ⟨.stream, ["push", "img:b"]⟩,
           ⟨.stream, ["push", "img:c"]⟩] :=
  ⟨rfl, (pushAllTags_pushes_every_tag_once abcWorld "img" State.init
    ⟨[⟨.capture, listArgs "img"⟩], []⟩ ["a", "b", "c"] rfl).1⟩

/-- C6: after a discovery that returned `tags`, the summary line written by
`pushAllTags` after the loop carries the number of pushes that succeeded and
the number that failed, the two add up to the number of tags, and the result is
an error, naming the failed count, exactly when that count is positive. -/
theorem pushAllTags_aggregate (w : World) (image : String) (s s1 : State)
    (tags : List String) (h : getAllTags w image s = (.ok tags, s1)) :
    (pushAllTags w image s).2.log.getLast?
        = some (summaryLine ((pushOutcomes w image tags s1.trace).count true)
            ((pushOutcomes w image tags s1.trace).count false)) ∧
      (pushOutcomes w image tags s1.trace).count true
        + (pushOutcomes w image tags s1.trace).count false = tags.length ∧
      (pushAllTags w image s).1
        = (if (pushOutcomes w image tags s1.trace).count false > 0 then
            some (.errorf (toString ((pushOutcomes w image tags s1.trace).count false)
              ++ " pushes failed"))
          else none) ∧
      ((∃ err, (pushAllTags w image s).1 = some err) ↔
        (pushOutcomes w image tags s1.trace).count false > 0) ∧
      (∀ s4 : State, s4.trace = s1.trace →
        (pushLoop w image tags 0 0 s4).1
          = (pushOutcomes w image tags s1.trace).count true ∧
        (pushLoop w image tags 0 0 s4).2.1
          = (pushOutcomes w image tags s1.trace).count false) := by
  have hc := pushLoop_counts w image tags 0 0
    ((logTags tags (s1.logMsg ("Found tags for " ++ image ++ ":\n"))).logMsg
      "\nStarting push operation...\n")
  have htr : ((logTags tags (s1.logMsg ("Found tags for " ++ image ++ ":\n"))).logMsg
      "\nStarting push operation...\n").trace = s1.trace := by
    simp [State.logMsg, logTags_trace]
  rw [htr] at hc
  rw [pushAllTags_ok w image s s1 tags h, hc.1, hc.2]
  simp only [Nat.zero_add]
  refine ⟨?_, ?_, ?_, ?_, ?_⟩
  · simp [State.logMsg]
  · have hlen := pushOutcomes_length w image tags s1.trace
    have := List.count_add_count_not (pushOutcomes w image tags s1.trace) true
    rw [Bool.not_true] at this
    omega
  · trivial
  · split_ifs with hpos
    · simp [hpos]
    · simp [hpos]
  · intro s4 hs4
    have := pushLoop_counts w image tags 0 0 s4
    rw [hs4] at this
    simpa using this

/-- C6, at the tags `a`, `b`, `c` with `a` and `c` pushed and `b` failing: two
successful, one failed, and an overall failure. -/
theorem pushAllTags_aggregate_witness :
    getAllTags abcWorld "img" State.init
        = (.ok ["a", "b", "c"], ⟨[⟨.capture, listArgs "img"⟩], []⟩) ∧
      pushOutcomes abcWorld "img" ["a", "b", "c"] [⟨.capture, listArgs "img"⟩]
        = [true, false, true] ∧
      (pushAllTags abcWorld "img" State.init).2.log.getLast?
        = some "\nPush completed: 2 successful, 1 failed\n" ∧
      (pushAllTags abcWorld "img" State.init).1 = some (.errorf "1 pushes failed") :=
  ⟨rfl, rfl,
    (pushAllTags_aggregate abcWorld "img" State.init
      ⟨[⟨.capture, listArgs "img"⟩], []⟩ ["a", "b", "c"] rfl).1,
    rfl⟩

/-- C7: when `getAllTags` fails, `pushAllTags` returns the same error and the
same state: the listing is its only invocation, no push is made. -/
theorem pushAllTags_discovery_failure (w : World) (image : String) (s s1 : State)
    (err : GoError) (h : getAllTags w image s = (.error err, s1)) :
    pushAllTags w image s = (some err, s1) ∧
      newInvocations s (pushAllTags w image s).2 = [⟨.capture, listArgs image⟩] ∧
      ∀ tag, (pushCmd image tag) ∉ newInvocations s (pushAllTags w image s).2 := by
  have hs1 : s1 = { s with trace := s.trace ++ [listCmd image] } := by
    have := getAllTags_state w image s
    rw [h] at this
    exact this
  have hnew : newInvocations s (pushAllTags w image s).2 = [⟨.capture, listArgs image⟩] := by
    rw [pushAllTags_error w image s s1 err h, hs1, newInvocations]
    simp [listCmd]
  refine ⟨pushAllTags_error w image s s1 err h, hnew, ?_⟩
  intro tag
  rw [hnew]
  simp [pushCmd]

/-- C7, at a listing that prints only the sentinel. -/
theorem pushAllTags_discovery_failure_witness :
    getAllTags noTagWorld "img" State.init
        = (.error (.errorf "no tags found for image: img"),
            ⟨[⟨.capture, listArgs "img"⟩], []⟩) ∧
      pushAllTags noTagWorld "img" State.init
        = (some (.errorf "no tags found for image: img"),
            ⟨[⟨.capture, listArgs "img"⟩], []⟩) :=
  ⟨rfl, (pushAllTags_discovery_failure noTagWorld "img" State.init
    ⟨[⟨.capture, listArgs "img"⟩], []⟩ _ rfl).1⟩

/-! ## The command router -/

theorem startsWith_dash_of_flag (arg : String) (h : arg = "-a" ∨ arg = "--all-tags") :
    startsWith arg "-" = true := by
  rcases h with h | h <;> subst h <;> rfl

theorem getLast?_cons_getD (a d : String) (l : List String) :
    ((a :: l).getLast?).getD d = (l.getLast?).getD a := by
  cases l with
  | nil => rfl
  | cons b l =>
    rw [List.getLast?_cons_cons]
    cases h : (b :: l).getLast? with
    | none => simp at h
    | some x => rfl

theorem allTagsFlag_iff (arg : String) :
    allTagsFlag arg = true ↔ (arg = "-a" ∨ arg = "--all-tags") := by
  simp only [allTagsFlag, decide_eq_true_eq]

theorem scanArgs_eq (rest : List String) :
    ∀ v : Scan, scanArgs rest v =
      ⟨v.hasAllTags || rest.any allTagsFlag,
       v.filteredArgs ++ rest.filter (fun a => !allTagsFlag a),
       ((candidates rest).getLast?).getD v.image⟩ := by
  induction rest with
  | nil => intro v; simp [scanArgs, candidates]
  | cons arg rest ih =>
    intro v
    by_cases hflag : arg = "-a" ∨ arg = "--all-tags"
    · have hdash := startsWith_dash_of_flag arg hflag
      have hb : allTagsFlag arg = true := (allTagsFlag_iff arg).2 hflag
      have hc : candidates (arg :: rest) = candidates rest := by
        simp [candidates, hdash]
      rw [scanArgs, if_pos hflag, ih, hc, List.any_cons, hb,
        List.filter_cons_of_neg (by simp [hb])]
      simp
    · have hb : allTagsFlag arg = false := by
        rw [← Bool.not_eq_true, allTagsFlag_iff]; exact hflag
      rw [scanArgs, if_neg hflag, List.any_cons, hb,
        List.filter_cons_of_pos (by simp [hb])]
      by_cases hdash : startsWith arg "-" = true
      · have hc : candidates (arg :: rest) = candidates rest := by
          simp [candidates, hdash]
        simp only [hdash, Bool.not_true, Bool.false_eq_true, if_false]
        rw [ih, hc]
        simp
      · have hdash2 : startsWith arg "-" = false := by simpa using hdash
        have hc : candidates (arg :: rest) = arg :: candidates rest := by
          simp [candidates, hdash2]
        simp only [hdash2, Bool.not_false, if_true]
        rw [ih, hc, getLast?_cons_getD]
        simp

theorem filter_not_flag_eq_self (rest : List String)
    (h : ∀ a ∈ rest, a ≠ "-a" ∧ a ≠ "--all-tags") :
    rest.filter (fun a => !allTagsFlag a) = rest := by
  rw [List.filter_eq_self]
  intro a ha
  have := h a ha
  simp [allTagsFlag, this.1, this.2]

theorem finalExecute_state (w : World) (args : List String) (s : State) :
    (finalExecute w args s).state = { s with trace := s.trace ++ [⟨.stream, args⟩] } := by
  simp only [finalExecute, executeCommand]
  split <;> simp_all

theorem finalExecute_exitCode (w : World) (args : List String) (s : State) :
    (finalExecute w args s).exitCode
      = if cmdErr (w.result s.trace ⟨.stream, args⟩) = none then 0 else 1 := by
  simp only [finalExecute, executeCommand]
  split <;> simp_all

/-- C1: when the tool is installed, for every non-empty argument vector that
is not a `push` with an all-tags flag among the later tokens, `main` makes one
call of `executeCommand`, and the only invocation of the run forwards the
original argument vector, token for token. -/
theorem main_passthrough (w : World) (args : List String)
    (hw : checkPodmanInstalled w = true) (hne : args ≠ [])
    (hnt : args.head? = some "push" → ∀ a ∈ args.tail, a ≠ "-a" ∧ a ≠ "--all-tags") :
    main w args = finalExecute w args State.init ∧
      (main w args).state = ⟨[⟨.stream, args⟩], []⟩ := by
  have hmain : main w args = finalExecute w args State.init := by
    cases args with
    | nil => exact absurd rfl hne
    | cons command rest =>
      simp only [main, hw, Bool.not_true, Bool.false_eq_true, if_false, route]
      by_cases hpush : command = "push"
      · subst hpush
        have hrest := hnt rfl
        simp only [List.tail_cons] at hrest
        have hany : rest.any allTagsFlag = false := by
          rw [List.any_eq_false]
          intro a ha
          have := hrest a ha
          simp [allTagsFlag, this.1, this.2]
        simp only [if_true, scanArgs_eq, Scan.init, hany, Bool.or_false,
          Bool.false_eq_true, if_false, List.nil_append,
          filter_not_flag_eq_self rest hrest]
      · simp only [hpush, if_false]
  refine ⟨hmain, ?_⟩
  rw [hmain, finalExecute_state]
  rfl

/-- C1, at `push --tls-verify=false img`. -/
theorem main_passthrough_witness :
    (main listingWorld ["push", "--tls-verify=false", "img"]).state
      = ⟨[⟨.stream, ["push", "--tls-verify=false", "img"]⟩], []⟩ :=
  (main_passthrough listingWorld ["push", "--tls-verify=false", "img"] rfl (by decide)
    (by decide)).2

theorem cmdErr_eq_none_iff (r : ChildResult) : cmdErr r = none ↔ r = .exited 0 := by
  cases r with
  | exited code => cases code <;> simp [cmdErr]
  | startError msg => simp [cmdErr]

/-- C2, as stated, fails: with no arguments and a child that exits with status
2, the shim makes its one invocation and exits with status 1, not 2. -/
theorem exit_code_not_mirrored_counterexample :
    exitTwoWorld.result [] ⟨.stream, []⟩ = .exited 2 ∧
      main exitTwoWorld [] = ⟨1, ⟨[⟨.stream, []⟩], []⟩⟩ ∧
      ¬ (∀ (w : World) (code : Nat), checkPodmanInstalled w = true →
          w.result [] ⟨.stream, []⟩ = .exited code → (main w []).exitCode = code) := by
  refine ⟨rfl, rfl, ?_⟩
  intro h
  have h2 := h exitTwoWorld 2 rfl rfl
  exact absurd h2 (by decide)

/-- C2, amended: when the tool is installed and the argument vector is empty,
`main` makes exactly one invocation, with the empty argument list, and exits
with status 0 when the child exited with status 0 and with status 1 in every
other case. -/
theorem main_no_args (w : World) (hw : checkPodmanInstalled w = true) :
    (main w []).state = ⟨[⟨.stream, []⟩], []⟩ ∧
      (main w []).exitCode
        = (if w.result [] ⟨.stream, []⟩ = .exited 0 then 0 else 1) := by
  simp only [main, hw, Bool.not_true, Bool.false_eq_true, if_false, route, executeCommand,
    State.init, ← cmdErr_eq_none_iff]
  cases cmdErr (w.result [] ⟨.stream, []⟩) <;> simp

/-- C2, amended, at a child that exits with status 2. -/
theorem main_no_args_witness :
    (main exitTwoWorld []).state = ⟨[⟨.stream, []⟩], []⟩ ∧
      (main exitTwoWorld []).exitCode
        = (if exitTwoWorld.result [] ⟨.stream, []⟩ = .exited 0 then 0 else 1) :=
  main_no_args exitTwoWorld rfl

theorem candidates_append (l1 l2 : List String) :
    candidates (l1 ++ l2) = candidates l1 ++ candidates l2 := by
  simp [candidates]

theorem candidates_eq_nil (l : List String) (h : ∀ a ∈ l, startsWith a "-" = true) :
    candidates l = [] := by
  simp only [candidates, List.filter_eq_nil_iff]
  intro a ha
  simp [h a ha]

/-- C8: the image resolved by the scan loop of `main` is the last token after
the subcommand that does not start with `-`, whatever tokens come before it and
whatever flags come after it. -/
theorem scan_image_is_last_candidate (before after : List String) (img : String)
    (himg : startsWith img "-" = false) (hafter : ∀ a ∈ after, startsWith a "-" = true) :
    (scanArgs (before ++ img :: after) Scan.init).image = img := by
  have hc : candidates (before ++ img :: after) = candidates before ++ [img] := by
    rw [candidates_append]
    have : candidates (img :: after) = img :: candidates after := by
      simp [candidates, himg]
    rw [this, candidates_eq_nil after hafter]
  rw [scanArgs_eq, hc]
  simp

/-- C8, at `push -a foo bar`: the image is `bar`, and at `push foo -a bar -q`
as well. -/
theorem scan_image_is_last_candidate_witness :
    (scanArgs (["-a", "foo"] ++ "bar" :: []) Scan.init).image = "bar" ∧
      (scanArgs ["foo", "-a", "bar", "-q"] Scan.init).image = "bar" :=
  ⟨scan_image_is_last_candidate ["-a", "foo"] [] "bar" rfl (by simp), rfl⟩

/-- C9: when the tool is installed, a `push` that carries an all-tags flag and
whose other tokens all start with `-` ends with the fatal message
`no image specified` and exit status 1, without any subprocess invocation. -/
theorem main_missing_image_fatal (w : World) (rest : List String)
    (hw : checkPodmanInstalled w = true)
    (hflag : ∃ a ∈ rest, a = "-a" ∨ a = "--all-tags")
    (hother : ∀ a ∈ rest, ¬ (a = "-a" ∨ a = "--all-tags") → startsWith a "-" = true) :
    main w ("push" :: rest)
      = ⟨1, ⟨[], ["Unsupported flag detected for push command, invoking shim...\n",
                  "no image specified"]⟩⟩ := by
  have hall : ∀ a ∈ rest, startsWith a "-" = true := by
    intro a ha
    by_cases hf : a = "-a" ∨ a = "--all-tags"
    · exact startsWith_dash_of_flag a hf
    · exact hother a ha hf
  have hany : rest.any allTagsFlag = true := by
    rw [List.any_eq_true]
    obtain ⟨a, ha, hf⟩ := hflag
    exact ⟨a, ha, (allTagsFlag_iff a).2 hf⟩
  simp only [main, hw, Bool.not_true, Bool.false_eq_true, if_false, route, if_true,
    scanArgs_eq, Scan.init, hany, Bool.or_true, candidates_eq_nil rest hall,
    List.getLast?_nil, Option.getD_none]
  rfl

/-- C9, at `push -a` and at `push --all-tags --quiet`. -/
theorem main_missing_image_fatal_witness :
    main listingWorld ["push", "-a"]
        = ⟨1, ⟨[], ["Unsupported flag detected for push command, invoking shim...\n",
                    "no image specified"]⟩⟩ ∧
      main listingWorld ["push", "--all-tags", "--quiet"]
        = ⟨1, ⟨[], ["Unsupported flag detected for push command, invoking shim...\n",
                    "no image specified"]⟩⟩ :=
  ⟨main_missing_image_fatal listingWorld ["-a"] rfl ⟨"-a", by simp, Or.inl rfl⟩
      (by intro a ha hf; simp at ha; exact absurd (Or.inl ha) hf),
    rfl⟩

theorem pushAllTags_trace_head (w : World) (image : String) (s : State) :
    ∃ pushes, (pushAllTags w image s).2.trace = s.trace ++ listCmd image :: pushes := by
  cases h : getAllTags w image s with
  | mk r s1 =>
    cases r with
    | error err =>
      refine ⟨[], ?_⟩
      have hs := getAllTags_state w image s
      rw [h] at hs
      rw [pushAllTags_error w image s s1 err h]
      simp only at hs
      rw [hs]
    | ok tags =>
      exact ⟨tags.map (pushCmd image), pushAllTags_trace_ok w image s s1 tags h⟩

theorem main_push_all_tags_eq (w : World) (rest : List String)
    (hw : checkPodmanInstalled w = true)
    (hflag : ∃ a ∈ rest, a = "-a" ∨ a = "--all-tags") :
    main w ("push" :: rest) =
      if resolvedImage rest = "" then
        ⟨1, ⟨[], ["Unsupported flag detected for push command, invoking shim...\n",
                  "no image specified"]⟩⟩
      else
        match pushAllTags w (resolvedImage rest)
            ⟨[], ["Unsupported flag detected for push command, invoking shim...\n",
                  "Pushing all tags for image: " ++ resolvedImage rest]⟩ with
        | (some err, s3) => logFatal err.Error s3
        | (none, s3) => ⟨0, s3⟩ := by
  have hany : rest.any allTagsFlag = true := by
    rw [List.any_eq_true]
    obtain ⟨a, ha, hf⟩ := hflag
    exact ⟨a, ha, (allTagsFlag_iff a).2 hf⟩
  simp only [main, hw, Bool.not_true, Bool.false_eq_true, if_false, route, if_true,
    scanArgs_eq, Scan.init, hany, Bool.or_true]
  rfl

/-- C10, as stated, fails: `push -a foo ""` carries the all-tags flag and two
tokens that do not start with `-`, yet `main` ends with the missing-image
error and makes no invocation. -/
theorem main_empty_last_candidate_is_missing_image :
    (∃ a ∈ ["-a", "foo", ""], a = "-a" ∨ a = "--all-tags") ∧
      (∃ a ∈ ["-a", "foo", ""], startsWith a "-" = false) ∧
      main listingWorld ["push", "-a", "foo", ""]
        = ⟨1, ⟨[], ["Unsupported flag detected for push command, invoking shim...\n",
                    "no image specified"]⟩⟩ :=
  ⟨⟨"-a", by simp, Or.inl rfl⟩, ⟨"foo", by simp, rfl⟩, rfl⟩

/-- C10, amended: when the tool is installed and a `push` carries an all-tags
flag, then, if the last token not starting with `-` exists and is not the empty
string, `main` calls `pushAllTags` with that token as image, ends with the
result of that call (fatal with the error message, or status 0), and makes no
invocation of its own, the first invocation of the run being the listing of
that image; and the missing-image error occurs exactly when there is no such
token or the last one is the empty string. -/
theorem main_push_all_tags_dispatch (w : World) (rest : List String)
    (hw : checkPodmanInstalled w = true)
    (hflag : ∃ a ∈ rest, a = "-a" ∨ a = "--all-tags") :
    (resolvedImage rest ≠ "" →
      main w ("push" :: rest) =
        (match pushAllTags w (resolvedImage rest)
            ⟨[], ["Unsupported flag detected for push command, invoking shim...\n",
                  "Pushing all tags for image: " ++ resolvedImage rest]⟩ with
        | (some err, s3) => logFatal err.Error s3
        | (none, s3) => ⟨0, s3⟩) ∧
      (main w ("push" :: rest)).state.trace =
        (pushAllTags w (resolvedImage rest)
            ⟨[], ["Unsupported flag detected for push command, invoking shim...\n",
                  "Pushing all tags for image: " ++ resolvedImage rest]⟩).2.trace ∧
      (main w ("push" :: rest)).state.trace.head?
        = some ⟨.capture, listArgs (resolvedImage rest)⟩) ∧
    (main w ("push" :: rest)
        = ⟨1, ⟨[], ["Unsupported flag detected for push command, invoking shim...\n",
                    "no image specified"]⟩⟩ ↔
      (candidates rest = [] ∨ (candidates rest).getLast? = some "")) := by
  have hmain := main_push_all_tags_eq w rest hw hflag
  have htrace : resolvedImage rest ≠ "" →
      (main w ("push" :: rest)).state.trace =
        (pushAllTags w (resolvedImage rest)
            ⟨[], ["Unsupported flag detected for push command, invoking shim...\n",
                  "Pushing all tags for image: " ++ resolvedImage rest]⟩).2.trace := by
    intro hne
    rw [hmain, if_neg hne]
    split <;> simp_all [logFatal, State.logMsg]
  have hhead : resolvedImage rest ≠ "" →
      (main w ("push" :: rest)).state.trace.head?
        = some ⟨.capture, listArgs (resolvedImage rest)⟩ := by
    intro hne
    obtain ⟨pushes, hp⟩ := pushAllTags_trace_head w (resolvedImage rest)
      ⟨[], ["Unsupported flag detected for push command, invoking shim...\n",
            "Pushing all tags for image: " ++ resolvedImage rest]⟩
    rw [htrace hne, hp]
    rfl
  have hres : resolvedImage rest = "" ↔
      (candidates rest = [] ∨ (candidates rest).getLast? = some "") := by
    unfold resolvedImage
    cases hl : (candidates rest).getLast? with
    | none => simp [List.getLast?_eq_none_iff.1 hl]
    | some x =>
      have : candidates rest ≠ [] := by
        intro hnil; rw [hnil] at hl; simp at hl
      simp [this]
  refine ⟨fun hne => ⟨?_, htrace hne, hhead hne⟩, ?_⟩
  · rw [hmain, if_neg hne]
  · rw [← hres]
    constructor
    · intro hfatal
      by_contra hne
      have hh := hhead hne
      rw [hfatal] at hh
      simp at hh
    · intro he
      rw [hmain, if_pos he]

/-- C10, amended, at `push -a foo bar` with the listing `1.0`, `<none>`,
`latest`: both tags of `bar` are pushed and the run ends with status 0. -/
theorem main_push_all_tags_dispatch_witness :
    resolvedImage ["-a", "foo", "bar"] = "bar" ∧
      (main listingWorld ["push", "-a", "foo", "bar"]).state.trace
        = [⟨.capture, listArgs "bar"⟩, ⟨.stream, ["push", "bar:1.0"]⟩,
           ⟨.stream, ["push", "bar:latest"]⟩] ∧
      (main listingWorld ["push", "-a", "foo", "bar"]).state.trace.head?
        = some ⟨.capture, listArgs (resolvedImage ["-a", "foo", "bar"])⟩ :=
  ⟨rfl, rfl,
    ((main_push_all_tags_dispatch listingWorld ["-a", "foo", "bar"] rfl
      ⟨"-a", by simp, Or.inl rfl⟩).1 (by decide)).2.2⟩

end PodmanShim
